import Mathlib

/-!
Verification of the classification engine of the meeting-notes analyzer
(`src/meeting_notes_app.py`, class `MeetingNotesAnalyzer`).

The engine is embedded shallowly:
* text is `List Char` (`Str`), mirroring Python string operations
  (`str.split('\n')`, `str.strip()`, `str.lower()`, substring `in`) on
  ASCII data;
* `re.search` with `re.IGNORECASE` is given by a small regex interpreter
  (`Re`, `reSearch`) covering exactly the constructs the source patterns
  use: literals, alternation, character classes with `*`/`+`, and `\b`;
  the twelve source patterns are transcribed one-to-one;
* the external spaCy library (sentence segmentation and per-token
  annotation) is a parameter: `sents` models `doc.sents` and `nlpFn`
  models `nlp(sentence)` producing a token list, each `Token` carrying
  `text`, `pos_`, `tag_`, `lemma_` and `ent_type_`;
* the category tests `_is_question` / `_is_decision` / `_is_action` are
  translated into the `Except` monad so that Python list indexing
  (`doc[0]`, `doc[i+1]`), which can raise `IndexError`, is explicit;
* a result dictionary `{"actions": [], "decisions": [], "questions": []}`
  is an association list `Results`, with `appendTo` modelling
  `results[key].append(v)` and `getList` modelling `results[key]`.
-/

abbrev Str := List Char

/-- Shorthand to move a Lean string literal into the `List Char` world. -/
def strL (s : String) : Str := s.data

/-- Python whitespace for `str.strip()` and for the regex class `\s`:
`' '`, `\t`, `\n`, `\r`, `\x0b` (vertical tab), `\x0c` (form feed). -/
def pySpace (c : Char) : Bool :=
  c = ' ' || c = '\t' || c = '\n' || c = '\r' || c = '\x0b' || c = '\x0c'

/-- Python `str.lower()` (ASCII fragment). -/
def pyLower (s : Str) : Str := s.map Char.toLower

/-- Python `str.strip()`: drop leading and trailing whitespace. -/
def pyStrip (s : Str) : Str :=
  ((s.dropWhile pySpace).reverse.dropWhile pySpace).reverse

/-- Python `str.split('\n')` (source line 187: `text.split('\n')`). -/
def splitLines : Str → List Str
  | [] => [[]]
  | c :: cs =>
    if c = '\n' then [] :: splitLines cs
    else
      match splitLines cs with
      | [] => [[c]]
      | l :: ls => (c :: l) :: ls

/-! ### A regex interpreter for the source's `re.search(pattern, text, re.IGNORECASE)`

The source patterns only use: literal characters, `(?:a|b|…)` alternation,
the classes `[^.!?]`, `\s`, `[A-Z]`, `[a-z]`, `[:]` with `*` or `+` on
single-character classes, and the word-boundary anchor `\b`.  Capturing
groups are irrelevant because `_check_patterns` only tests for a match. -/

inductive Re where
  | eps : Re
  | cls : (Char → Bool) → Re
  | seq : Re → Re → Re
  | alt : Re → Re → Re
  | starCls : (Char → Bool) → Re
  | plusCls : (Char → Bool) → Re
  | bound : Re

/-- Python `\w` (ASCII fragment): letters, digits, underscore. -/
def isWordChar (c : Char) : Bool := c.isAlphanum || c = '_'

/-- `\b` holds between `prev` and the next character when exactly one side
is a word character. -/
def atBoundary (prev : Option Char) (rest : Str) : Bool :=
  let pw := match prev with | none => false | some c => isWordChar c
  let nw := match rest with | [] => false | c :: _ => isWordChar c
  pw != nw

/-- All ways of consuming zero or more class-`p` characters: each entry is
the last consumed character (for `\b` context) and the remaining input. -/
def takeSplits (p : Char → Bool) (prev : Option Char) (rest : Str) :
    List (Option Char × Str) :=
  (prev, rest) ::
    match rest with
    | [] => []
    | c :: cs => if p c then takeSplits p (some c) cs else []

/-- All ways a regex can match a prefix of `rest` (with `prev` the character
just before `rest`, for word boundaries); each entry is the post-match
context. -/
def matchFrom : Re → Option Char → Str → List (Option Char × Str)
  | .eps, prev, rest => [(prev, rest)]
  | .cls p, _, rest =>
    match rest with
    | c :: cs => if p c then [(some c, cs)] else []
    | [] => []
  | .seq a b, prev, rest =>
    (matchFrom a prev rest).flatMap fun pr => matchFrom b pr.1 pr.2
  | .alt a b, prev, rest => matchFrom a prev rest ++ matchFrom b prev rest
  | .starCls p, prev, rest => takeSplits p prev rest
  | .plusCls p, _, rest =>
    match rest with
    | c :: cs => if p c then takeSplits p (some c) cs else []
    | [] => []
  | .bound, prev, rest =>
    if atBoundary prev rest then [(prev, rest)] else []

/-- Try to match at the current position, else advance one character:
`re.search` semantics. -/
def searchAux (r : Re) (prev : Option Char) (s : Str) : Bool :=
  !(matchFrom r prev s).isEmpty ||
    match s with
    | [] => false
    | c :: cs => searchAux r (some c) cs

/-- `re.search(r, s, re.IGNORECASE) is not None` (case-insensitivity is
built into the character predicates below). -/
def reSearch (r : Re) (s : Str) : Bool := searchAux r none s

/-- A literal string, case-insensitively (the `re.IGNORECASE` flag). -/
def lit (w : String) : Re :=
  (w.data.map fun d => Re.cls fun c => c.toLower = d.toLower).foldr Re.seq .eps

/-- `(?:a|b|…)` alternation. -/
def alts : List Re → Re
  | [] => .cls fun _ => false
  | [r] => r
  | r :: rs => .alt r (alts rs)

/-- The class `[^.!?]`. -/
def notTerm (c : Char) : Bool := !(c = '.' || c = '!' || c = '?')

/-- `[A-Z]` and `[a-z]` under `re.IGNORECASE` both match any ASCII letter. -/
def asciiAlpha (c : Char) : Bool := c.isAlpha

/-- `self.action_patterns` (source lines 33–38). -/
def actionPatterns : List Re :=
  [ -- r'\b(?:will|should|must|need to|have to|going to)\s+([^.!?]+)'
    .seq .bound (.seq (alts [lit "will", lit "should", lit "must",
        lit "need to", lit "have to", lit "going to"])
      (.seq (.plusCls pySpace) (.plusCls notTerm))),
    -- r'\b(?:action|task|todo|follow up|next step)[:]\s*([^.!?]+)'
    .seq .bound (.seq (alts [lit "action", lit "task", lit "todo",
        lit "follow up", lit "next step"])
      (.seq (.cls fun c => c = ':')
        (.seq (.starCls pySpace) (.plusCls notTerm)))),
    -- r'\b([A-Z][a-z]+\s+(?:will|should|must|needs to))\s+([^.!?]+)'
    .seq .bound (.seq (.cls asciiAlpha) (.seq (.plusCls asciiAlpha)
      (.seq (.plusCls pySpace)
        (.seq (alts [lit "will", lit "should", lit "must", lit "needs to"])
          (.seq (.plusCls pySpace) (.plusCls notTerm)))))),
    -- r'\b(?:assign|delegate|responsible for)\s+([^.!?]+)'
    .seq .bound (.seq (alts [lit "assign", lit "delegate",
        lit "responsible for"])
      (.seq (.plusCls pySpace) (.plusCls notTerm))) ]

/-- `self.decision_patterns` (source lines 40–45). -/
def decisionPatterns : List Re :=
  [ -- r'\b(?:decided|agreed|resolved|concluded|determined)\s+(?:to|that)\s+([^.!?]+)'
    .seq .bound (.seq (alts [lit "decided", lit "agreed", lit "resolved",
        lit "concluded", lit "determined"])
      (.seq (.plusCls pySpace) (.seq (alts [lit "to", lit "that"])
        (.seq (.plusCls pySpace) (.plusCls notTerm))))),
    -- r'\b(?:we|they|it was)\s+(?:decided|agreed|resolved)\s+([^.!?]+)'
    .seq .bound (.seq (alts [lit "we", lit "they", lit "it was"])
      (.seq (.plusCls pySpace)
        (.seq (alts [lit "decided", lit "agreed", lit "resolved"])
          (.seq (.plusCls pySpace) (.plusCls notTerm))))),
    -- r'\b(?:decision|conclusion|agreement)[:]\s*([^.!?]+)'
    .seq .bound (.seq (alts [lit "decision", lit "conclusion",
        lit "agreement"])
      (.seq (.cls fun c => c = ':')
        (.seq (.starCls pySpace) (.plusCls notTerm)))),
    -- r'\b(?:final|official)\s+(?:decision|call|verdict)\s+([^.!?]+)'
    .seq .bound (.seq (alts [lit "final", lit "official"])
      (.seq (.plusCls pySpace)
        (.seq (alts [lit "decision", lit "call", lit "verdict"])
          (.seq (.plusCls pySpace) (.plusCls notTerm))))) ]

/-- `self.question_patterns` (source lines 47–52). -/
def questionPatterns : List Re :=
  [ -- r'([^.!?]*\?)'
    .seq (.starCls notTerm) (.cls fun c => c = '?'),
    -- r'\b(?:question|ask|wondering|unclear|unsure)\s+(?:about|if|whether)\s+([^.!?]+)'
    .seq .bound (.seq (alts [lit "question", lit "ask", lit "wondering",
        lit "unclear", lit "unsure"])
      (.seq (.plusCls pySpace) (.seq (alts [lit "about", lit "if",
          lit "whether"])
        (.seq (.plusCls pySpace) (.plusCls notTerm))))),
    -- r'\b(?:what|how|when|where|why|who)\s+([^.!?]+\?)'
    .seq .bound (.seq (alts [lit "what", lit "how", lit "when",
        lit "where", lit "why", lit "who"])
      (.seq (.plusCls pySpace)
        (.seq (.plusCls notTerm) (.cls fun c => c = '?')))),
    -- r'\b(?:need to clarify|need clarification|open item)\s+([^.!?]+)'
    .seq .bound (.seq (alts [lit "need to clarify", lit "need clarification",
        lit "open item"])
      (.seq (.plusCls pySpace) (.plusCls notTerm))) ]

/-- `MeetingNotesAnalyzer._check_patterns` (source lines 205–210). -/
def checkPatterns (text : Str) (patterns : List Re) : Bool :=
  patterns.any fun p => reSearch p text

/-! ### The result dictionary -/

abbrev Results := List (String × List Str)

/-- `{"actions": [], "decisions": [], "questions": []}`. -/
def initResults : Results := [("actions", []), ("decisions", []), ("questions", [])]

/-- `results[k].append(v)`. -/
def appendTo (r : Results) (k : String) (v : Str) : Results :=
  r.map fun p => if p.1 = k then (p.1, p.2 ++ [v]) else p

/-- `results[k]` (empty when the key is absent). -/
def getList (r : Results) (k : String) : List Str :=
  match r.find? fun p => p.1 = k with
  | some p => p.2
  | none => []

/-- Whether the key is present. -/
def hasKey (r : Results) (k : String) : Bool := r.any fun p => p.1 = k

/-- The keys, in order. -/
def keysOf (r : Results) : List String := r.map Prod.fst

/-- `list(dict.fromkeys(l))`: drop later duplicates, keeping the first
occurrence of each element (`seen` is the set of already-kept elements). -/
def dedupFirst (seen : List Str) : List Str → List Str
  | [] => []
  | x :: xs =>
    if seen.contains x then dedupFirst seen xs
    else x :: dedupFirst (x :: seen) xs

/-- The loop at source lines 81–82:
`for key in results: results[key] = list(dict.fromkeys(results[key]))`. -/
def dedupResults (r : Results) : Results :=
  r.map fun p => (p.1, dedupFirst [] p.2)

/-! ### The pattern-matching strategy -/

/-- The body of the per-line loop of `analyze_with_patterns`
(source lines 188–201). -/
def patStep (results : Results) (rawLine : Str) : Results :=
  let line := pyStrip rawLine
  if line = [] then results
  else if checkPatterns line questionPatterns then appendTo results "questions" line
  else if checkPatterns line decisionPatterns then appendTo results "decisions" line
  else if checkPatterns line actionPatterns then appendTo results "actions" line
  else results

/-- `MeetingNotesAnalyzer.analyze_with_patterns` (source lines 183–203).
Note: this function performs no de-duplication. -/
def analyzeWithPatterns (text : Str) : Results :=
  (splitLines text).foldl patStep initResults

/-! ### The annotation-based strategy

The spaCy library itself is external to the repository; a token carries the
attributes the source reads: `text`, `pos_`, `tag_`, `lemma_`, `ent_type_`.
Sentence segmentation (`doc.sents`) and per-sentence annotation
(`nlp(sentence)`) are parameters `sents` and `nlpFn` of the analyzer. -/

/-- Python's substring operator `needle in hay`. -/
def pyContains (needle : Str) : Str → Bool
  | [] => needle.isEmpty
  | d :: ds => needle.isPrefixOf (d :: ds) || pyContains needle ds

structure Token where
  text : Str
  pos_ : String
  tag_ : String
  lemma_ : Str
  ent_type_ : String
deriving DecidableEq

/-- Python `doc[i]`: raises `IndexError` when out of range. -/
def pyGet (doc : List Token) (i : Nat) : Except String Token :=
  match doc[i]? with
  | some t => .ok t
  | none => .error "IndexError"

/-- `question_words` (source line 93). -/
def questionWords : List Str :=
  [strL "what", strL "how", strL "when", strL "where", strL "why",
   strL "who", strL "which", strL "whose"]

/-- `uncertainty_phrases` (source lines 99–100). -/
def uncertaintyPhrases : List Str :=
  [strL "unclear", strL "unsure", strL "not sure", strL "question",
   strL "wondering", strL "need clarification", strL "open item",
   strL "to be determined", strL "tbd"]

/-- `aux_verbs` (source line 106). -/
def auxVerbs : List Str :=
  [strL "do", strL "does", strL "did", strL "can", strL "could",
   strL "will", strL "would", strL "should"]

/-- `MeetingNotesAnalyzer._is_question` (source lines 86–110), with the
indexing `doc[0]` explicit; the source guards both uses behind `if doc`. -/
def isQuestionX (sentence : Str) (doc : List Token) : Except String Bool :=
  if pyContains (strL "?") sentence then .ok true
  else
    (if doc ≠ [] then (pyGet doc 0).map fun t => pyLower t.text
     else .ok []) >>= fun firstTok =>
    if questionWords.contains firstTok then .ok true
    else if uncertaintyPhrases.any fun p => pyContains p (pyLower sentence) then .ok true
    else if doc ≠ [] then
      pyGet doc 0 >>= fun t =>
        if auxVerbs.contains (pyLower t.text) ∧ t.pos_ = "AUX" then .ok true
        else .ok false
    else .ok false

/-- `decision_verbs` (source lines 114–115). -/
def decisionVerbs : List Str :=
  [strL "decided", strL "agreed", strL "resolved", strL "concluded",
   strL "determined", strL "approved", strL "confirmed", strL "finalized",
   strL "settled"]

/-- `decision_nouns` (source lines 116–117). -/
def decisionNouns : List Str :=
  [strL "decision", strL "agreement", strL "resolution", strL "conclusion",
   strL "approval", strL "confirmation", strL "verdict", strL "ruling"]

/-- `passive_indicators` (source line 130). -/
def passiveIndicators : List Str :=
  [strL "it was decided", strL "it was agreed", strL "it was resolved"]

/-- `MeetingNotesAnalyzer._is_decision` (source lines 112–140); it never
indexes into `doc`, only iterates, so no indexing errors can arise. -/
def isDecisionX (sentence : Str) (doc : List Token) : Except String Bool :=
  if decisionVerbs.any fun v => pyContains v (pyLower sentence) then .ok true
  else if decisionNouns.any fun v => pyContains v (pyLower sentence) then .ok true
  else if passiveIndicators.any fun v => pyContains v (pyLower sentence) then .ok true
  else if doc.any fun t => t.pos_ = "VERB" ∧ (t.tag_ = "VBD" ∨ t.tag_ = "VBN")
      ∧ t.lemma_ ∈ decisionVerbs then .ok true
  else .ok false

/-- `action_indicators` (source lines 144–146). -/
def actionIndicators : List Str :=
  [strL "will", strL "should", strL "must", strL "need to", strL "have to",
   strL "going to", strL "action", strL "task", strL "todo", strL "assign",
   strL "responsible", strL "follow up", strL "next step",
   strL "deliverable", strL "owner"]

/-- `modal_obligations` (source line 169). -/
def modalObligations : List Str :=
  [strL "should", strL "must", strL "need", strL "have"]

/-- The loop at source lines 162–166: a token `"will"` immediately followed
by a verb-tagged token (`doc[i + 1]` guarded by `i + 1 < len(doc)`). -/
def willVerbLoop (doc : List Token) : List (Nat × Token) → Except String Bool
  | [] => .ok false
  | (i, tok) :: rest =>
    if pyLower tok.text = strL "will" ∧ i + 1 < doc.length then
      pyGet doc (i + 1) >>= fun nxt =>
        if nxt.pos_ = "VERB" then .ok true else willVerbLoop doc rest
    else willVerbLoop doc rest

/-- The loop at source lines 175–179: a `PERSON` entity immediately
followed by `will`/`should`/`must`/`to`. -/
def personLoop (doc : List Token) : List (Nat × Token) → Except String Bool
  | [] => .ok false
  | (i, tok) :: rest =>
    if tok.ent_type_ = "PERSON" ∧ i + 1 < doc.length then
      pyGet doc (i + 1) >>= fun nxt =>
        if pyLower nxt.text ∈ [strL "will", strL "should", strL "must", strL "to"]
        then .ok true else personLoop doc rest
    else personLoop doc rest

/-- Source lines 161–181: the part of `_is_action` after the imperative
first-token check. -/
def isActionTail (doc : List Token) : Except String Bool :=
  willVerbLoop doc doc.enum >>= fun b1 =>
  if b1 then .ok true
  else if doc.any fun t => pyLower t.text ∈ modalObligations
      ∧ (t.pos_ = "VERB" ∨ t.pos_ = "AUX") then .ok true
  else personLoop doc doc.enum

/-- `MeetingNotesAnalyzer._is_action` (source lines 142–181); `doc[0]`
is guarded by `if doc and len(doc) > 0`. -/
def isActionX (sentence : Str) (doc : List Token) : Except String Bool :=
  if actionIndicators.any fun v => pyContains v (pyLower sentence) then .ok true
  else if doc ≠ [] ∧ doc.length > 0 then
    pyGet doc 0 >>= fun ft =>
      if ft.pos_ = "VERB" ∧ ft.tag_ = "VB" then .ok true
      else isActionTail doc
  else isActionTail doc

/-- Run an `Except`-valued test as a plain boolean.  The totality theorem
below shows all three tests always return `.ok`, so nothing is lost. -/
def exOk (e : Except String Bool) : Bool :=
  match e with
  | .ok b => b
  | .error _ => false

def isQuestion (sentence : Str) (doc : List Token) : Bool :=
  exOk (isQuestionX sentence doc)

def isDecision (sentence : Str) (doc : List Token) : Bool :=
  exOk (isDecisionX sentence doc)

def isAction (sentence : Str) (doc : List Token) : Bool :=
  exOk (isActionX sentence doc)

/-- The body of the per-sentence loop of `analyze_with_spacy` (source
lines 64–78): `sentence_doc = nlp(sentence)` followed by the
question/decision/action priority chain. -/
def spacyStep (nlpFn : Str → List Token) (results : Results) (sentence : Str) :
    Results :=
  let doc := nlpFn sentence
  if isQuestion sentence doc then appendTo results "questions" sentence
  else if isDecision sentence doc then appendTo results "decisions" sentence
  else if isAction sentence doc then appendTo results "actions" sentence
  else results

/-- Source line 62: `[sent.text.strip() for sent in doc.sents if sent.text.strip()]`. -/
def stripSents (sents : Str → List Str) (text : Str) : List Str :=
  ((sents text).map pyStrip).filter fun s => !s.isEmpty

/-- The aggregation loop of `analyze_with_spacy` before de-duplication
(source lines 60–78). -/
def spacyRaw (sents : Str → List Str) (nlpFn : Str → List Token)
    (text : Str) : Results :=
  (stripSents sents text).foldl (spacyStep nlpFn) initResults

/-- `MeetingNotesAnalyzer.analyze_with_spacy` (source lines 54–84).
`spacyAvailable` is the module-level `SPACY_AVAILABLE` flag (source
lines 10–20); when it is false the method returns
`self.analyze_with_patterns(text)` (lines 56–57). -/
def analyzeWithSpacy (spacyAvailable : Bool) (sents : Str → List Str)
    (nlpFn : Str → List Token) (text : Str) : Results :=
  if spacyAvailable = false then analyzeWithPatterns text
  else dedupResults (spacyRaw sents nlpFn text)

/-! ### Derived views of the two per-unit classifiers

`patStep` and `spacyStep` both have the shape "compute an optional target
key, append the unit there"; factoring that shape out lets one fold lemma
serve both strategies. -/

/-- The category key chosen for an already stripped line by the if/elif
chain of `analyze_with_patterns` (source lines 190–201). -/
def patKeyS (line : Str) : Option String :=
  if line = [] then none
  else if checkPatterns line questionPatterns then some "questions"
  else if checkPatterns line decisionPatterns then some "decisions"
  else if checkPatterns line actionPatterns then some "actions"
  else none

/-- The category key chosen for a raw line (strip, then classify). -/
def patKey (rawLine : Str) : Option String := patKeyS (pyStrip rawLine)

/-- The category key chosen for a sentence by the priority chain of
`analyze_with_spacy` (source lines 73–78). -/
def spacyKey (nlpFn : Str → List Token) (s : Str) : Option String :=
  if isQuestion s (nlpFn s) then some "questions"
  else if isDecision s (nlpFn s) then some "decisions"
  else if isAction s (nlpFn s) then some "actions"
  else none

/-- Append the unit `u` (transported by `g`) to the list of its chosen
key, if any. -/
def stepOf (f : Str → Option String) (g : Str → Str) (r : Results) (u : Str) :
    Results :=
  match f u with
  | some k => appendTo r k (g u)
  | none => r

theorem patStep_eq_stepOf : patStep = stepOf patKey pyStrip := by
  funext r u
  simp only [patStep, stepOf, patKey, patKeyS]
  split_ifs <;> rfl

theorem spacyStep_eq_stepOf (nlpFn : Str → List Token) :
    spacyStep nlpFn = stepOf (spacyKey nlpFn) id := by
  funext r s
  simp only [spacyStep, stepOf, spacyKey]
  split_ifs <;> rfl

/-! ### Lemmas about the result dictionary -/

theorem appendTo_cons (p : String × List Str) (r : Results) (k : String)
    (v : Str) :
    appendTo (p :: r) k v
      = (if p.1 = k then (p.1, p.2 ++ [v]) else p) :: appendTo r k v := rfl

theorem getList_cons_of_pos {p : String × List Str} {r : Results}
    {k : String} (h : p.1 = k) : getList (p :: r) k = p.2 := by
  unfold getList
  rw [List.find?_cons_of_pos _ (by simp [h])]

theorem getList_cons_of_neg {p : String × List Str} {r : Results}
    {k : String} (h : ¬(p.1 = k)) : getList (p :: r) k = getList r k := by
  unfold getList
  rw [List.find?_cons_of_neg _ (by simp [h])]

theorem getList_appendTo_ne (r : Results) (k k2 : String) (v : Str)
    (h : k ≠ k2) : getList (appendTo r k2 v) k = getList r k := by
  induction r with
  | nil => rfl
  | cons p r ih =>
    rw [appendTo_cons]
    by_cases hp : p.1 = k2
    · have hpk : ¬(p.1 = k) := fun hc => h (hc.symm.trans hp)
      rw [if_pos hp, getList_cons_of_pos (p := p) (r := r) hp |>.symm] at *
      rw [getList_cons_of_neg (by simpa using hpk),
        getList_cons_of_neg hpk]
      exact ih
    · rw [if_neg hp]
      by_cases hk : p.1 = k
      · rw [getList_cons_of_pos hk, getList_cons_of_pos hk]
      · rw [getList_cons_of_neg hk, getList_cons_of_neg hk]
        exact ih

theorem getList_appendTo_self (r : Results) (k : String) (v : Str)
    (h : hasKey r k = true) :
    getList (appendTo r k v) k = getList r k ++ [v] := by
  induction r with
  | nil => simp [hasKey] at h
  | cons p r ih =>
    rw [appendTo_cons]
    by_cases hp : p.1 = k
    · rw [if_pos hp, getList_cons_of_pos (by simpa using hp),
        getList_cons_of_pos hp]
    · have htail : hasKey r k = true := by
        simpa [hasKey, List.any_cons, hp] using h
      rw [if_neg hp, getList_cons_of_neg hp, getList_cons_of_neg hp]
      exact ih htail

theorem hasKey_appendTo (r : Results) (k k2 : String) (v : Str) :
    hasKey (appendTo r k2 v) k = hasKey r k := by
  induction r with
  | nil => rfl
  | cons p r ih =>
    rw [appendTo_cons]
    by_cases hp : p.1 = k2
    · simp only [if_pos hp, hasKey, List.any_cons] at ih ⊢
      rw [ih]
    · simp only [if_neg hp, hasKey, List.any_cons] at ih ⊢
      rw [ih]

theorem keysOf_appendTo (r : Results) (k : String) (v : Str) :
    keysOf (appendTo r k v) = keysOf r := by
  induction r with
  | nil => rfl
  | cons p r ih =>
    rw [appendTo_cons]
    by_cases hp : p.1 = k
    · simp only [if_pos hp, keysOf, List.map_cons] at ih ⊢
      rw [ih]
    · simp only [if_neg hp, keysOf, List.map_cons] at ih ⊢
      rw [ih]

theorem hasKey_stepOf (f : Str → Option String) (g : Str → Str)
    (r : Results) (u : Str) (k : String) :
    hasKey (stepOf f g r u) k = hasKey r k := by
  unfold stepOf
  cases f u with
  | none => rfl
  | some k2 => exact hasKey_appendTo r k k2 (g u)

theorem keysOf_stepOf (f : Str → Option String) (g : Str → Str)
    (r : Results) (u : Str) :
    keysOf (stepOf f g r u) = keysOf r := by
  unfold stepOf
  cases f u with
  | none => rfl
  | some k2 => exact keysOf_appendTo r k2 (g u)

theorem getList_foldl_stepOf (f : Str → Option String) (g : Str → Str)
    (k : String) (us : List Str) (r : Results) (h : hasKey r k = true) :
    getList (us.foldl (stepOf f g) r) k
      = getList r k ++ (us.filter fun u => f u == some k).map g := by
  induction us generalizing r with
  | nil => simp
  | cons u us ih =>
    simp only [List.foldl_cons]
    cases hfu : f u with
    | none =>
      have hstep : stepOf f g r u = r := by simp [stepOf, hfu]
      rw [hstep, ih r h, List.filter_cons]
      simp [hfu]
    | some k2 =>
      have hstep : stepOf f g r u = appendTo r k2 (g u) := by
        simp [stepOf, hfu]
      by_cases hk : k2 = k
      · subst hk
        rw [hstep, ih _ (by rw [hasKey_appendTo]; exact h),
          getList_appendTo_self r k2 (g u) h, List.filter_cons]
        simp [hfu, List.append_assoc]
      · rw [hstep, ih _ (by rw [hasKey_appendTo]; exact h),
          getList_appendTo_ne r k k2 (g u) (fun hkk => hk (hkk.symm)),
          List.filter_cons]
        simp [hfu, hk]

theorem keysOf_foldl_stepOf (f : Str → Option String) (g : Str → Str)
    (us : List Str) (r : Results) :
    keysOf (us.foldl (stepOf f g) r) = keysOf r := by
  induction us generalizing r with
  | nil => rfl
  | cons u us ih => rw [List.foldl_cons, ih, keysOf_stepOf]

theorem getList_initResults (k : String) : getList initResults k = [] := by
  by_cases h1 : "actions" = k <;> by_cases h2 : "decisions" = k <;>
    by_cases h3 : "questions" = k <;>
      simp [getList, initResults, List.find?, h1, h2, h3]

/-! ### Lemmas about de-duplication -/

theorem mem_dedupFirst (l : List Str) (seen : List Str) (x : Str) :
    x ∈ dedupFirst seen l ↔ x ∈ l ∧ x ∉ seen := by
  induction l generalizing seen with
  | nil => simp [dedupFirst]
  | cons y ys ih =>
    by_cases hy : y ∈ seen
    · rw [dedupFirst, if_pos (by simpa using hy), ih]
      constructor
      · rintro ⟨hx, hns⟩; exact ⟨List.mem_cons_of_mem _ hx, hns⟩
      · rintro ⟨hx, hns⟩
        rcases List.mem_cons.mp hx with h | h
        · exact absurd (h ▸ hy) hns
        · exact ⟨h, hns⟩
    · rw [dedupFirst, if_neg (by simpa using hy)]
      simp only [List.mem_cons, ih]
      constructor
      · rintro (rfl | ⟨hx, hns⟩)
        · exact ⟨Or.inl rfl, hy⟩
        · exact ⟨Or.inr hx, fun hs => hns (Or.inr hs)⟩
      · rintro ⟨rfl | hx, hns⟩
        · exact Or.inl rfl
        · by_cases hxy : x = y
          · exact Or.inl hxy
          · exact Or.inr ⟨hx, by simp [hxy, hns]⟩

theorem dedupFirst_sublist (l : List Str) (seen : List Str) :
    List.Sublist (dedupFirst seen l) l := by
  induction l generalizing seen with
  | nil => simp [dedupFirst]
  | cons y ys ih =>
    rw [dedupFirst]
    split_ifs
    · exact List.Sublist.cons y (ih seen)
    · exact List.Sublist.cons₂ y (ih (y :: seen))

theorem dedupFirst_nodup (l : List Str) (seen : List Str) :
    (dedupFirst seen l).Nodup := by
  induction l generalizing seen with
  | nil => simp [dedupFirst]
  | cons y ys ih =>
    rw [dedupFirst]
    split_ifs
    · exact ih seen
    · refine List.Nodup.cons (fun hmem => ?_) (ih (y :: seen))
      exact ((mem_dedupFirst ys (y :: seen) y).mp hmem).2 (List.mem_cons_self y _)

/-- The index of the first occurrence of `x` in `l` (the length of `l`
when `x` does not occur). -/
def firstIdx : List Str → Str → Nat
  | [], _ => 0
  | y :: ys, x => if y = x then 0 else firstIdx ys x + 1

theorem firstIdx_cons_self (x : Str) (xs : List Str) :
    firstIdx (x :: xs) x = 0 := by
  rw [firstIdx, if_pos rfl]

theorem firstIdx_cons_ne (x y : Str) (xs : List Str) (h : y ≠ x) :
    firstIdx (x :: xs) y = firstIdx xs y + 1 := by
  rw [firstIdx, if_neg (fun hc => h hc.symm)]

theorem dedupFirst_pairwise (l : List Str) (seen : List Str) :
    (dedupFirst seen l).Pairwise fun a b => firstIdx l a < firstIdx l b := by
  induction l generalizing seen with
  | nil => simp [dedupFirst]
  | cons x xs ih =>
    rw [dedupFirst]
    split_ifs with hx
    · refine (ih seen).imp_of_mem ?_
      intro a b ha hb hab
      have hax : a ≠ x := by
        intro h
        refine ((mem_dedupFirst xs seen a).mp ha).2 ?_
        rw [h]
        simpa using hx
      have hbx : b ≠ x := by
        intro h
        refine ((mem_dedupFirst xs seen b).mp hb).2 ?_
        rw [h]
        simpa using hx
      rw [firstIdx_cons_ne _ _ _ hax, firstIdx_cons_ne _ _ _ hbx]
      exact Nat.succ_lt_succ hab
    · rw [List.pairwise_cons]
      constructor
      · intro b hb
        have hbx : b ≠ x := by
          intro h
          refine ((mem_dedupFirst xs (x :: seen) b).mp hb).2 ?_
          rw [h]
          exact List.mem_cons_self x seen
        rw [firstIdx_cons_self, firstIdx_cons_ne _ _ _ hbx]
        exact Nat.succ_pos _
      · refine (ih (x :: seen)).imp_of_mem ?_
        intro a b ha hb hab
        have hax : a ≠ x := by
          intro h
          refine ((mem_dedupFirst xs (x :: seen) a).mp ha).2 ?_
          rw [h]
          exact List.mem_cons_self x seen
        have hbx : b ≠ x := by
          intro h
          refine ((mem_dedupFirst xs (x :: seen) b).mp hb).2 ?_
          rw [h]
          exact List.mem_cons_self x seen
        rw [firstIdx_cons_ne _ _ _ hax, firstIdx_cons_ne _ _ _ hbx]
        exact Nat.succ_lt_succ hab

theorem getList_dedupResults (r : Results) (k : String) :
    getList (dedupResults r) k = dedupFirst [] (getList r k) := by
  induction r with
  | nil => rfl
  | cons p r ih =>
    by_cases hp : p.1 = k
    · simp [dedupResults, getList, List.find?, hp]
    · simpa [dedupResults, getList, List.find?, hp, decide_eq_false hp]
        using ih

theorem keysOf_dedupResults (r : Results) : keysOf (dedupResults r) = keysOf r := by
  simp [dedupResults, keysOf]

/-! ### Lemmas about segmentation and stripping -/

theorem splitLines_ne_nil (t : Str) : splitLines t ≠ [] := by
  cases t with
  | nil => simp [splitLines]
  | cons c cs =>
    rw [splitLines]
    split_ifs
    · simp
    · cases h : splitLines cs <;> simp

theorem mem_of_mem_splitLines (t : Str) (l : Str) (hl : l ∈ splitLines t) :
    ∀ c ∈ l, c ∈ t := by
  induction t generalizing l with
  | nil =>
    simp [splitLines] at hl
    subst hl
    intro c hc
    cases hc
  | cons d ds ih =>
    rw [splitLines] at hl
    by_cases hd : d = '\n'
    · rw [if_pos hd] at hl
      rcases List.mem_cons.mp hl with rfl | hmem
      · intro c hc; cases hc
      · intro c hc
        exact List.mem_cons_of_mem d (ih l hmem c hc)
    · rw [if_neg hd] at hl
      rcases hsp : splitLines ds with _ | ⟨m, ms⟩
      · exact absurd hsp (splitLines_ne_nil ds)
      · rw [hsp] at hl
        rcases List.mem_cons.mp hl with rfl | hmem
        · intro c hc
          rcases List.mem_cons.mp hc with rfl | hcm
          · exact List.mem_cons_self c ds
          · refine List.mem_cons_of_mem d (ih m ?_ c hcm)
            rw [hsp]; exact List.mem_cons_self m ms
        · intro c hc
          refine List.mem_cons_of_mem d (ih l ?_ c hc)
          rw [hsp]; exact List.mem_cons_of_mem m hmem

theorem pyStrip_eq_nil (l : Str) (h : ∀ c ∈ l, pySpace c = true) :
    pyStrip l = [] := by
  have h1 : l.dropWhile pySpace = [] := List.dropWhile_eq_nil_iff.mpr h
  simp [pyStrip, h1]

/-! ### Substring containment is list-infix -/

theorem pyContains_iff (n h : Str) : pyContains n h = true ↔ n <:+: h := by
  induction h with
  | nil =>
    constructor
    · intro hc
      have : n = [] := by simpa [pyContains, List.isEmpty_iff] using hc
      simp [this]
    · intro hi
      have : n = [] := List.eq_nil_of_infix_nil hi
      simp [pyContains, this]
  | cons d ds ih =>
    rw [pyContains]
    constructor
    · intro hc
      rcases Bool.or_eq_true_iff.mp hc with hpre | hrest
      · exact (List.IsPrefix.isInfix (List.isPrefixOf_iff_prefix.mp hpre))
      · exact (ih.mp hrest).trans (List.suffix_cons d ds).isInfix
    · intro hi
      rcases List.infix_cons_iff.mp hi with hpre | hinf
      · exact Bool.or_eq_true_iff.mpr (Or.inl (List.isPrefixOf_iff_prefix.mpr hpre))
      · exact Bool.or_eq_true_iff.mpr (Or.inr (ih.mpr hinf))

theorem pyContains_trans (a b c : Str) (hab : pyContains a b = true)
    (hbc : pyContains b c = true) : pyContains a c = true :=
  (pyContains_iff a c).mpr
    (((pyContains_iff a b).mp hab).trans ((pyContains_iff b c).mp hbc))

/-! ### Totality of the category tests: every indexing is guarded -/

theorem pyGet_isOk (doc : List Token) (i : Nat) (h : i < doc.length) :
    ∃ t, pyGet doc i = .ok t := by
  refine ⟨doc[i], ?_⟩
  unfold pyGet
  rw [List.getElem?_eq_getElem h]

theorem willVerbLoop_isOk (doc : List Token) (l : List (Nat × Token)) :
    ∃ b, willVerbLoop doc l = .ok b := by
  induction l with
  | nil => exact ⟨false, rfl⟩
  | cons p rest ih =>
    obtain ⟨i, tok⟩ := p
    rw [willVerbLoop]
    split_ifs with hc
    · obtain ⟨nxt, hnxt⟩ := pyGet_isOk doc (i + 1) hc.2
      rw [hnxt]
      simp only [Bind.bind, Except.bind]
      split_ifs
      · exact ⟨true, rfl⟩
      · exact ih
    · exact ih

theorem personLoop_isOk (doc : List Token) (l : List (Nat × Token)) :
    ∃ b, personLoop doc l = .ok b := by
  induction l with
  | nil => exact ⟨false, rfl⟩
  | cons p rest ih =>
    obtain ⟨i, tok⟩ := p
    rw [personLoop]
    split_ifs with hc
    · obtain ⟨nxt, hnxt⟩ := pyGet_isOk doc (i + 1) hc.2
      rw [hnxt]
      simp only [Bind.bind, Except.bind]
      split_ifs
      · exact ⟨true, rfl⟩
      · exact ih
    · exact ih

theorem isActionTail_isOk (doc : List Token) :
    ∃ b, isActionTail doc = .ok b := by
  unfold isActionTail
  obtain ⟨b1, hb1⟩ := willVerbLoop_isOk doc doc.enum
  rw [hb1]
  simp only [Bind.bind, Except.bind]
  split_ifs
  · exact ⟨true, rfl⟩
  · exact ⟨true, rfl⟩
  · exact personLoop_isOk doc doc.enum

theorem isQuestionX_isOk (s : Str) (doc : List Token) :
    ∃ b, isQuestionX s doc = .ok b := by
  unfold isQuestionX
  cases doc with
  | nil =>
    simp only [ne_eq, not_true_eq_false, if_neg, ite_false, Bind.bind,
      Except.bind]
    split_ifs <;> exact ⟨_, rfl⟩
  | cons t ts =>
    have h0 : pyGet (t :: ts) 0 = .ok t := by simp [pyGet]
    simp only [ne_eq, reduceCtorEq, not_false_eq_true, if_pos, ite_true, h0,
      Except.map, Bind.bind, Except.bind]
    split_ifs <;> exact ⟨_, rfl⟩

theorem isDecisionX_isOk (s : Str) (doc : List Token) :
    ∃ b, isDecisionX s doc = .ok b := by
  unfold isDecisionX
  split_ifs <;> exact ⟨_, rfl⟩

theorem isActionX_isOk (s : Str) (doc : List Token) :
    ∃ b, isActionX s doc = .ok b := by
  unfold isActionX
  split_ifs with h1 h2
  · exact ⟨true, rfl⟩
  · obtain ⟨ft, hft⟩ := pyGet_isOk doc 0 h2.2
    rw [hft]
    simp only [Bind.bind, Except.bind]
    split_ifs
    · exact ⟨true, rfl⟩
    · exact isActionTail_isOk doc
  · exact isActionTail_isOk doc

/-! ### Closed forms for the two analyzers -/

theorem getList_analyzeWithPatterns (t : Str) (k : String)
    (h : hasKey initResults k = true) :
    getList (analyzeWithPatterns t) k
      = ((splitLines t).filter fun u => patKey u == some k).map pyStrip := by
  unfold analyzeWithPatterns
  rw [patStep_eq_stepOf, getList_foldl_stepOf _ _ _ _ _ h, getList_initResults]
  simp

theorem getList_spacyRaw (sents : Str → List Str) (nlpFn : Str → List Token)
    (t : Str) (k : String) (h : hasKey initResults k = true) :
    getList (spacyRaw sents nlpFn t) k
      = (stripSents sents t).filter fun u => spacyKey nlpFn u == some k := by
  unfold spacyRaw
  rw [spacyStep_eq_stepOf, getList_foldl_stepOf _ _ _ _ _ h,
    getList_initResults]
  simp

theorem mem_getList_patterns (t : Str) (k : String) (s : Str)
    (h : hasKey initResults k = true) :
    s ∈ getList (analyzeWithPatterns t) k
      ↔ ∃ u ∈ splitLines t, patKey u = some k ∧ pyStrip u = s := by
  rw [getList_analyzeWithPatterns t k h]
  simp only [List.mem_map, List.mem_filter, beq_iff_eq]
  constructor
  · rintro ⟨u, ⟨hu, hk⟩, hs⟩
    exact ⟨u, hu, hk, hs⟩
  · rintro ⟨u, hu, hk, hs⟩
    exact ⟨u, ⟨hu, hk⟩, hs⟩

theorem analyzeWithSpacy_true (sents : Str → List Str)
    (nlpFn : Str → List Token) (t : Str) :
    analyzeWithSpacy true sents nlpFn t = dedupResults (spacyRaw sents nlpFn t) := by
  unfold analyzeWithSpacy
  rw [if_neg (by simp)]

theorem mem_getList_spacy (sents : Str → List Str) (nlpFn : Str → List Token)
    (t : Str) (k : String) (s : Str) (h : hasKey initResults k = true) :
    s ∈ getList (analyzeWithSpacy true sents nlpFn t) k
      ↔ s ∈ stripSents sents t ∧ spacyKey nlpFn s = some k := by
  rw [analyzeWithSpacy_true, getList_dedupResults, getList_spacyRaw _ _ _ _ h]
  rw [mem_dedupFirst]
  simp [List.mem_filter]

/-! ### A few more shared helpers -/

theorem analyzeWithSpacy_false (sents : Str → List Str)
    (nlpFn : Str → List Token) (text : Str) :
    analyzeWithSpacy false sents nlpFn text = analyzeWithPatterns text := by
  unfold analyzeWithSpacy
  rw [if_pos rfl]

theorem patKeyS_of_mem (t : Str) (k : String) (s : Str)
    (hk : hasKey initResults k = true)
    (hs : s ∈ getList (analyzeWithPatterns t) k) : patKeyS s = some k := by
  obtain ⟨u, _, hku, hsu⟩ := (mem_getList_patterns t k s hk).mp hs
  unfold patKey at hku
  rw [hsu] at hku
  exact hku

theorem spacyKey_of_mem (sents : Str → List Str) (nlpFn : Str → List Token)
    (t : Str) (k : String) (s : Str) (hk : hasKey initResults k = true)
    (hs : s ∈ getList (analyzeWithSpacy true sents nlpFn t) k) :
    spacyKey nlpFn s = some k :=
  ((mem_getList_spacy sents nlpFn t k s hk).mp hs).2

theorem foldl_patStep_blank (lines : List Str) (r : Results)
    (h : ∀ l ∈ lines, pyStrip l = []) : lines.foldl patStep r = r := by
  induction lines generalizing r with
  | nil => rfl
  | cons l ls ih =>
    have hstep : patStep r l = r := by
      unfold patStep
      rw [if_pos (h l (List.mem_cons_self l ls))]
    rw [List.foldl_cons, hstep]
    exact ih r fun m hm => h m (List.mem_cons_of_mem l hm)

/-! ### The claims -/

/-- C6: every category test (`_is_question`, `_is_decision`, `_is_action`)
is a total function of the unit text and its annotation — on every input,
including an empty token sequence, the `Except`-level translations return
`.ok` and never an `IndexError`: all `doc[…]` accesses sit behind guards. -/
theorem c6_tests_total (s : Str) (doc : List Token) :
    (∃ b, isQuestionX s doc = Except.ok b)
    ∧ (∃ b, isDecisionX s doc = Except.ok b)
    ∧ (∃ b, isActionX s doc = Except.ok b) :=
  ⟨isQuestionX_isOk s doc, isDecisionX_isOk s doc, isActionX_isOk s doc⟩

/-- C7: when the linguistic-annotation capability is unavailable
(`SPACY_AVAILABLE = False`), `analyze_with_spacy` returns exactly
`analyze_with_patterns` on the same text, with no error. -/
theorem c7_silent_fallback (sents : Str → List Str)
    (nlpFn : Str → List Token) (text : Str) :
    analyzeWithSpacy false sents nlpFn text = analyzeWithPatterns text :=
  analyzeWithSpacy_false sents nlpFn text

/-- C8: analysis is deterministic — two calls on identical input, with the
same strategy and the same annotation capability, give identical results
(the embedding is a pure function of the text and the capability
parameters, matching the stateless source methods). -/
theorem c8_deterministic (avail : Bool) (sents : Str → List Str)
    (nlpFn : Str → List Token) (t1 t2 : Str) (h : t1 = t2) :
    analyzeWithSpacy avail sents nlpFn t1 = analyzeWithSpacy avail sents nlpFn t2
    ∧ analyzeWithPatterns t1 = analyzeWithPatterns t2 := by
  subst h
  exact ⟨rfl, rfl⟩

theorem c8_deterministic_witness :
    strL "We will ship." = strL "We will ship."
    ∧ (analyzeWithSpacy true (fun t => [t]) (fun _ => []) (strL "We will ship.")
        = analyzeWithSpacy true (fun t => [t]) (fun _ => []) (strL "We will ship.")
      ∧ analyzeWithPatterns (strL "We will ship.")
        = analyzeWithPatterns (strL "We will ship.")) :=
  ⟨rfl, c8_deterministic true (fun t => [t]) (fun _ => []) _ _ rfl⟩

/-- C9: the annotation-based surface keyword checks are plain
case-insensitive substring containment, not whole-word matches: a unit
whose lowercased text contains "undecided" passes `_is_decision` (through
the substring "decided"), and one whose lowercased text contains
"willing" passes `_is_action` (through the substring "will"). -/
theorem c9_substring_checks (s1 s2 : Str) (d1 d2 : List Token)
    (h1 : pyContains (strL "undecided") (pyLower s1) = true)
    (h2 : pyContains (strL "willing") (pyLower s2) = true) :
    isDecision s1 d1 = true ∧ isAction s2 d2 = true := by
  have hd : pyContains (strL "decided") (pyLower s1) = true :=
    pyContains_trans _ _ _ (by decide) h1
  have ha : pyContains (strL "will") (pyLower s2) = true :=
    pyContains_trans _ _ _ (by decide) h2
  constructor
  · have hany : (decisionVerbs.any fun v => pyContains v (pyLower s1)) = true :=
      List.any_eq_true.mpr ⟨strL "decided", by decide, hd⟩
    simp [isDecision, isDecisionX, hany, exOk]
  · have hany : (actionIndicators.any fun v => pyContains v (pyLower s2)) = true :=
      List.any_eq_true.mpr ⟨strL "will", by decide, ha⟩
    simp [isAction, isActionX, hany, exOk]

theorem c9_substring_checks_witness :
    pyContains (strL "undecided") (pyLower (strL "Still undecided, sadly")) = true
    ∧ pyContains (strL "willing") (pyLower (strL "He seems willing")) = true
    ∧ (isDecision (strL "Still undecided, sadly") [] = true
      ∧ isAction (strL "He seems willing") [] = true) :=
  ⟨by decide, by decide,
    c9_substring_checks (strL "Still undecided, sadly") (strL "He seems willing")
      [] [] (by decide) (by decide)⟩

/-- C10: under both strategies the returned mapping has exactly the keys
"actions", "decisions", "questions", in that order — no key is ever added
or dropped by the aggregation or the de-duplication pass. -/
theorem c10_result_keys (avail : Bool) (sents : Str → List Str)
    (nlpFn : Str → List Token) (text : Str) :
    keysOf (analyzeWithSpacy avail sents nlpFn text)
      = ["actions", "decisions", "questions"]
    ∧ keysOf (analyzeWithPatterns text)
      = ["actions", "decisions", "questions"] := by
  have hp : keysOf (analyzeWithPatterns text)
      = ["actions", "decisions", "questions"] := by
    unfold analyzeWithPatterns
    rw [patStep_eq_stepOf, keysOf_foldl_stepOf]
    rfl
  refine ⟨?_, hp⟩
  cases avail with
  | false => rw [analyzeWithSpacy_false]; exact hp
  | true =>
    rw [analyzeWithSpacy_true, keysOf_dedupResults]
    unfold spacyRaw
    rw [spacyStep_eq_stepOf, keysOf_foldl_stepOf]
    rfl

/-- Helper used only by C4: the text `s` occurs in at most one of the
three output lists of the result `r`. -/
def mutexAt (r : Results) (s : Str) : Prop :=
  ¬(s ∈ getList r "actions" ∧ s ∈ getList r "decisions")
  ∧ ¬(s ∈ getList r "actions" ∧ s ∈ getList r "questions")
  ∧ ¬(s ∈ getList r "decisions" ∧ s ∈ getList r "questions")

/-- C4: under both strategies, any unit text appears in at most one of the
three output sequences of a single analysis result.  This holds because
each strategy's per-unit category is a function of the unit text alone
(for the annotation strategy, through the fixed annotation function), so
equal texts always land in the same category. -/
theorem c4_mutually_exclusive (text s : Str) (avail : Bool)
    (sents : Str → List Str) (nlpFn : Str → List Token) :
    mutexAt (analyzeWithPatterns text) s
    ∧ mutexAt (analyzeWithSpacy avail sents nlpFn text) s := by
  have hpat : mutexAt (analyzeWithPatterns text) s := by
    refine ⟨?_, ?_, ?_⟩ <;> rintro ⟨hm1, hm2⟩
    · have h1 := patKeyS_of_mem text "actions" s (by decide) hm1
      have h2 := patKeyS_of_mem text "decisions" s (by decide) hm2
      rw [h1] at h2
      simp at h2
    · have h1 := patKeyS_of_mem text "actions" s (by decide) hm1
      have h2 := patKeyS_of_mem text "questions" s (by decide) hm2
      rw [h1] at h2
      simp at h2
    · have h1 := patKeyS_of_mem text "decisions" s (by decide) hm1
      have h2 := patKeyS_of_mem text "questions" s (by decide) hm2
      rw [h1] at h2
      simp at h2
  refine ⟨hpat, ?_⟩
  cases avail with
  | false => rw [analyzeWithSpacy_false]; exact hpat
  | true =>
    refine ⟨?_, ?_, ?_⟩ <;> rintro ⟨hm1, hm2⟩
    · have h1 := spacyKey_of_mem sents nlpFn text "actions" s (by decide) hm1
      have h2 := spacyKey_of_mem sents nlpFn text "decisions" s (by decide) hm2
      rw [h1] at h2
      simp at h2
    · have h1 := spacyKey_of_mem sents nlpFn text "actions" s (by decide) hm1
      have h2 := spacyKey_of_mem sents nlpFn text "questions" s (by decide) hm2
      rw [h1] at h2
      simp at h2
    · have h1 := spacyKey_of_mem sents nlpFn text "decisions" s (by decide) hm1
      have h2 := spacyKey_of_mem sents nlpFn text "questions" s (by decide) hm2
      rw [h1] at h2
      simp at h2

/-- C5: an input that is empty or consists only of whitespace yields a
result whose three sequences are all empty, under both strategies, and no
error occurs (every function involved is total).  For the annotation
strategy, the external segmenter returns spans of the input, so on
whitespace-only input every returned sentence is itself whitespace-only;
that is the second hypothesis. -/
theorem c5_blank_input (text : Str) (sents : Str → List Str)
    (nlpFn : Str → List Token) (avail : Bool)
    (hT : ∀ c ∈ text, pySpace c = true)
    (hS : ∀ s ∈ sents text, ∀ c ∈ s, pySpace c = true) :
    (getList (analyzeWithPatterns text) "actions" = []
      ∧ getList (analyzeWithPatterns text) "decisions" = []
      ∧ getList (analyzeWithPatterns text) "questions" = [])
    ∧ (getList (analyzeWithSpacy avail sents nlpFn text) "actions" = []
      ∧ getList (analyzeWithSpacy avail sents nlpFn text) "decisions" = []
      ∧ getList (analyzeWithSpacy avail sents nlpFn text) "questions" = []) := by
  have hpat : analyzeWithPatterns text = initResults := by
    unfold analyzeWithPatterns
    refine foldl_patStep_blank _ _ fun l hl => pyStrip_eq_nil l fun c hc => ?_
    exact hT c (mem_of_mem_splitLines text l hl c hc)
  have hpat3 : getList (analyzeWithPatterns text) "actions" = []
      ∧ getList (analyzeWithPatterns text) "decisions" = []
      ∧ getList (analyzeWithPatterns text) "questions" = [] := by
    rw [hpat]
    exact ⟨getList_initResults _, getList_initResults _, getList_initResults _⟩
  refine ⟨hpat3, ?_⟩
  cases avail with
  | false => rw [analyzeWithSpacy_false]; exact hpat3
  | true =>
    have hstrip : stripSents sents text = [] := by
      unfold stripSents
      rw [List.filter_eq_nil_iff]
      intro a ha
      obtain ⟨s, hs, hsa⟩ := List.mem_map.mp ha
      have : pyStrip s = [] := pyStrip_eq_nil s (hS s hs)
      rw [← hsa, this]
      simp
    have : analyzeWithSpacy true sents nlpFn text = initResults := by
      rw [analyzeWithSpacy_true]
      unfold spacyRaw
      rw [hstrip]
      rfl
    rw [this]
    exact ⟨getList_initResults _, getList_initResults _, getList_initResults _⟩

theorem c5_blank_input_witness :
    (∀ c ∈ strL " \n\t  ", pySpace c = true)
    ∧ (∀ s ∈ ([] : List Str), ∀ c ∈ s, pySpace c = true)
    ∧ ((getList (analyzeWithPatterns (strL " \n\t  ")) "actions" = []
        ∧ getList (analyzeWithPatterns (strL " \n\t  ")) "decisions" = []
        ∧ getList (analyzeWithPatterns (strL " \n\t  ")) "questions" = [])
      ∧ (getList (analyzeWithSpacy true (fun _ => []) (fun _ => [])
            (strL " \n\t  ")) "actions" = []
        ∧ getList (analyzeWithSpacy true (fun _ => []) (fun _ => [])
            (strL " \n\t  ")) "decisions" = []
        ∧ getList (analyzeWithSpacy true (fun _ => []) (fun _ => [])
            (strL " \n\t  ")) "questions" = [])) :=
  ⟨by decide, (by intro s hs; cases hs),
    c5_blank_input (strL " \n\t  ") (fun _ => []) (fun _ => []) true
      (by decide) (by intro s hs; cases hs)⟩

/-- C1 counterexample: `analyze_with_patterns` performs no de-duplication
(the `dict.fromkeys` pass exists only in `analyze_with_spacy`, source
lines 80–82).  On the spec's own two-identical-lines input the actions
sequence contains the text twice, not once. -/
theorem c1_counterexample :
    getList (analyzeWithPatterns
        (strL "Action: update the wiki.\nAction: update the wiki.")) "actions"
      = [strL "Action: update the wiki.", strL "Action: update the wiki."]
    ∧ getList (analyzeWithPatterns
        (strL "Action: update the wiki.\nAction: update the wiki.")) "actions"
      ≠ [strL "Action: update the wiki."] := by
  constructor
  · decide
  · decide

/-- C1 (amended): the annotation-based strategy de-duplicates each
category's sequence preserving first-occurrence order — the returned list
is a duplicate-free subsequence of the aggregated list with exactly the
same members, and consecutive elements appear in strictly increasing order
of their first occurrence in the aggregated list (the `Pairwise` conjunct:
only the first-occurrence de-duplication satisfies all four together); the
pattern-matching strategy performs no de-duplication, and on the input
with two identical lines "Action: update the wiki." its actions sequence
contains that text twice, in input order. -/
theorem c1_dedup_amended :
    (∀ (sents : Str → List Str) (nlpFn : Str → List Token) (text : Str)
        (k : String),
      (getList (analyzeWithSpacy true sents nlpFn text) k).Nodup
      ∧ List.Sublist (getList (analyzeWithSpacy true sents nlpFn text) k)
          (getList (spacyRaw sents nlpFn text) k)
      ∧ (∀ x, x ∈ getList (analyzeWithSpacy true sents nlpFn text) k
          ↔ x ∈ getList (spacyRaw sents nlpFn text) k)
      ∧ (getList (analyzeWithSpacy true sents nlpFn text) k).Pairwise
          (fun a b =>
            firstIdx (getList (spacyRaw sents nlpFn text) k) a
              < firstIdx (getList (spacyRaw sents nlpFn text) k) b))
    ∧ getList (analyzeWithPatterns
        (strL "Action: update the wiki.\nAction: update the wiki.")) "actions"
      = [strL "Action: update the wiki.", strL "Action: update the wiki."] := by
  constructor
  · intro sents nlpFn text k
    rw [analyzeWithSpacy_true, getList_dedupResults]
    refine ⟨dedupFirst_nodup _ _, dedupFirst_sublist _ _, fun x => ?_,
      dedupFirst_pairwise _ _⟩
    rw [mem_dedupFirst]
    simp
  · decide

/-- C3: on the input "We decided to ship on Friday." both strategies
return decisions = [that sentence] with empty actions and questions.  For
the annotation strategy the external segmenter is assumed to return the
sentence itself, and the first token produced by the annotation engine is
assumed not to be a question word nor an AUX-tagged auxiliary (true of
the real tokenization, whose first token is "We"); the decision verdict
comes unconditionally from the "decided" substring. -/
theorem c3_scenario_one (sents : Str → List Str) (nlpFn : Str → List Token)
    (hsents : sents (strL "We decided to ship on Friday.")
        = [strL "We decided to ship on Friday."])
    (htok : ∀ t, (nlpFn (strL "We decided to ship on Friday.")).head? = some t
        → questionWords.contains (pyLower t.text) = false
          ∧ ¬(auxVerbs.contains (pyLower t.text) = true ∧ t.pos_ = "AUX")) :
    analyzeWithSpacy true sents nlpFn (strL "We decided to ship on Friday.")
      = [("actions", []),
         ("decisions", [strL "We decided to ship on Friday."]),
         ("questions", [])]
    ∧ analyzeWithPatterns (strL "We decided to ship on Friday.")
      = [("actions", []),
         ("decisions", [strL "We decided to ship on Friday."]),
         ("questions", [])] := by
  refine ⟨?_, by decide⟩
  have hq : isQuestion (strL "We decided to ship on Friday.")
      (nlpFn (strL "We decided to ship on Friday.")) = false := by
    cases hdoc : nlpFn (strL "We decided to ship on Friday.") with
    | nil => decide
    | cons t ts =>
      have hcond := htok t (by rw [hdoc]; rfl)
      have h1 : pyContains (strL "?") (strL "We decided to ship on Friday.")
          = false := by decide
      have h2 : (uncertaintyPhrases.any fun p =>
          pyContains p (pyLower (strL "We decided to ship on Friday."))) = false := by
        decide
      have h0 : pyGet (t :: ts) 0 = .ok t := by simp [pyGet]
      have hc1 : pyLower t.text ∉ questionWords := by simpa using hcond.1
      have hc2 : ¬(pyLower t.text ∈ auxVerbs ∧ t.pos_ = "AUX") := by
        simpa using hcond.2
      simp [isQuestion, isQuestionX, h1, h2, h0, hc1, hc2, exOk,
        Bind.bind, Except.bind, Except.map]
  have hdec : isDecision (strL "We decided to ship on Friday.")
      (nlpFn (strL "We decided to ship on Friday.")) = true := by
    have hany : (decisionVerbs.any fun v =>
        pyContains v (pyLower (strL "We decided to ship on Friday.")))
          = true := by decide
    simp [isDecision, isDecisionX, hany, exOk]
  have hss : stripSents sents (strL "We decided to ship on Friday.")
      = [strL "We decided to ship on Friday."] := by
    unfold stripSents
    rw [hsents]
    decide
  rw [analyzeWithSpacy_true]
  unfold spacyRaw
  rw [hss, List.foldl_cons, List.foldl_nil]
  have hstep : spacyStep nlpFn initResults (strL "We decided to ship on Friday.")
      = appendTo initResults "decisions" (strL "We decided to ship on Friday.") := by
    simp [spacyStep, hq, hdec]
  rw [hstep]
  decide

theorem c3_scenario_one_witness :
    ((fun _ : Str => [strL "We decided to ship on Friday."])
        (strL "We decided to ship on Friday.")
      = [strL "We decided to ship on Friday."])
    ∧ (analyzeWithSpacy true (fun _ => [strL "We decided to ship on Friday."])
        (fun _ => []) (strL "We decided to ship on Friday.")
      = [("actions", []),
         ("decisions", [strL "We decided to ship on Friday."]),
         ("questions", [])]
      ∧ analyzeWithPatterns (strL "We decided to ship on Friday.")
      = [("actions", []),
         ("decisions", [strL "We decided to ship on Friday."]),
         ("questions", [])]) :=
  ⟨rfl, c3_scenario_one (fun _ => [strL "We decided to ship on Friday."])
    (fun _ => []) rfl (by intro t ht; simp at ht)⟩
